import Mathlib

set_option maxHeartbeats 1000000

/-!
Verification of the local note store of the flickr-mcp-server repository.

The definitions below are a shallow embedding of `src/notes-db.ts` (the
JSON-file-backed note store) and of the note tools registered in
`src/tools/notes.ts`.

Modelling conventions:
* JavaScript strings are embedded as `List Char`.
* The ambient clock (`new Date()`) is passed to `addNote` as an explicit
  `DateTime` argument; `Date.prototype.toISOString` is embedded
  field-by-field as the fixed-width `"YYYY-MM-DDTHH:MM:SS.mmmZ"` rendering
  the ECMAScript standard prescribes for it.
* The module-level mutable `data` variable together with the persisted
  `notes.json` file becomes an explicit `Store` record threaded through
  the operations; `JSON.stringify` / `JSON.parse` of the plain record
  `{next_id, notes}` round-trips exactly, so the file contents are
  modelled as `Option NotesData` (`none` = file absent).
* `Array.prototype.sort` is stable (ECMAScript 2019) and is called with the
  comparator `(a, b) => b.created_at.localeCompare(a.created_at)`; it is
  embedded as the stable `List.mergeSort` with the matching total preorder.
  `localeCompare` on the fixed-format ASCII timestamp strings produced by
  the store coincides with code-point lexicographic comparison.
-/

namespace FlickrNotes

/-- `export type EntityType = "photo" | "album" | "group"` from notes-db.ts. -/
inductive EntityType
  | photo
  | album
  | group
deriving DecidableEq, Repr

/-- The `NoteRow` interface of notes-db.ts. -/
structure NoteRow where
  id : Nat
  entity_type : EntityType
  entity_id : List Char
  note : List Char
  created_at : List Char
deriving DecidableEq, Repr

/-- The `NotesData` interface of notes-db.ts: the whole persisted document. -/
structure NotesData where
  next_id : Nat
  notes : List NoteRow
deriving DecidableEq, Repr

/-- The process state: the module-level `data` variable plus the contents of
the `notes.json` file (`none` when the file does not exist). -/
structure Store where
  data : NotesData
  file : Option NotesData
deriving DecidableEq, Repr

/-- A wall-clock instant as observed through `new Date()`, split into the
UTC fields that `toISOString` renders. -/
structure DateTime where
  year : Nat
  month : Nat
  day : Nat
  hour : Nat
  minute : Nat
  second : Nat
  ms : Nat
deriving DecidableEq, Repr

/-- The decimal digit character for `n % 10`. -/
def digitChar (n : Nat) : Char :=
  match n % 10 with
  | 0 => '0'
  | 1 => '1'
  | 2 => '2'
  | 3 => '3'
  | 4 => '4'
  | 5 => '5'
  | 6 => '6'
  | 7 => '7'
  | 8 => '8'
  | _ => '9'

/-- Two-digit fixed-width decimal rendering (ISO field). -/
def pad2 (n : Nat) : List Char := [digitChar (n / 10), digitChar n]

/-- Three-digit fixed-width decimal rendering (ISO milliseconds field). -/
def pad3 (n : Nat) : List Char := [digitChar (n / 100), digitChar (n / 10), digitChar n]

/-- Four-digit fixed-width decimal rendering (ISO year field). -/
def pad4 (n : Nat) : List Char :=
  [digitChar (n / 1000), digitChar (n / 100), digitChar (n / 10), digitChar n]

/-- `Date.prototype.toISOString()`: `"YYYY-MM-DDTHH:MM:SS.mmmZ"`. -/
def toISOString (d : DateTime) : List Char :=
  pad4 d.year ++ ['-'] ++ pad2 d.month ++ ['-'] ++ pad2 d.day ++ ['T']
    ++ pad2 d.hour ++ [':'] ++ pad2 d.minute ++ [':'] ++ pad2 d.second
    ++ ['.'] ++ pad3 d.ms ++ ['Z']

/-- `s.startsWith(pre)`: does the first list start with the second? -/
def listStartsWith : List Char → List Char → Bool
  | _, [] => true
  | [], _ :: _ => false
  | a :: as, b :: bs => a = b && listStartsWith as bs

/-- `String.prototype.replace` with a plain string pattern: replaces the
first occurrence of `pat` by `repl` (the whole string is returned unchanged
when `pat` does not occur). -/
def replaceFirst (pat repl : List Char) : List Char → List Char
  | [] => if listStartsWith [] pat then repl else []
  | a :: as =>
    if listStartsWith (a :: as) pat then repl ++ (a :: as).drop pat.length
    else a :: replaceFirst pat repl as

/-- `new Date().toISOString().replace("T", " ").slice(0, 19)` — the
`created_at` stamp computed in `addNote` (notes-db.ts line 48). -/
def createdAt (d : DateTime) : List Char :=
  (replaceFirst ['T'] [' '] (toISOString d)).take 19

/-- `String.prototype.toLowerCase` (character-wise lowercasing). -/
def toLower (s : List Char) : List Char := s.map Char.toLower

/-- `hay.includes(needle)`: substring test. -/
def jsIncludes : List Char → List Char → Bool
  | [], needle => listStartsWith [] needle
  | a :: as, needle => listStartsWith (a :: as) needle || jsIncludes as needle

/-- `x.localeCompare(y) <= 0`, embedded as code-point lexicographic order
(the two agree on the fixed-format ASCII timestamps the store produces). -/
def lexLe : List Char → List Char → Bool
  | [], _ => true
  | _ :: _, [] => false
  | a :: as, b :: bs =>
    if a.toNat < b.toNat then true
    else if b.toNat < a.toNat then false
    else lexLe as bs

/-- The sort comparator `(a, b) => b.created_at.localeCompare(a.created_at)`
as the preorder "a may come before b": newest (largest timestamp) first. -/
def byCreatedAtDesc (a b : NoteRow) : Bool := lexLe b.created_at a.created_at

/-- The fresh document `{ next_id: 1, notes: [] }` (notes-db.ts line 33). -/
def initialData : NotesData := { next_id := 1, notes := [] }

/-- `save()`: `writeFileSync(JSON_PATH, JSON.stringify(data, null, 2))`. -/
def save (σ : Store) : Store := { σ with file := some σ.data }

/-- `initNotesDb()`: load `data` from the file when it exists, otherwise
start from `initialData` and persist it. -/
def initNotesDb (σ : Store) : Store :=
  match σ.file with
  | some d => { σ with data := d }
  | none => save { σ with data := initialData }

/-- The row literal built inside `addNote`. -/
def mkRow (nid : Nat) (t : EntityType) (i txt : List Char) (now : DateTime) : NoteRow :=
  { id := nid, entity_type := t, entity_id := i, note := txt, created_at := createdAt now }

/-- `addNote(entityType, entityId, note)`: assigns `data.next_id++` as the id,
stamps the current time, pushes the row and saves. Returns the new row. -/
def addNote (t : EntityType) (i txt : List Char) (now : DateTime) (σ : Store) :
    NoteRow × Store :=
  let row := mkRow σ.data.next_id t i txt now
  (row,
    save { σ with
      data := { next_id := σ.data.next_id + 1, notes := σ.data.notes ++ [row] } })

/-- `getNotes(entityType, entityId)`: filter on the exact entity pair, then
sort most-recent-first by `created_at` (stable sort, descending). -/
def getNotes (t : EntityType) (i : List Char) (σ : Store) : List NoteRow :=
  (σ.data.notes.filter fun n => n.entity_type == t && n.entity_id == i).mergeSort
    byCreatedAtDesc

/-- `deleteNote(noteId)`: `findIndex` on the id; `-1` reports `false`,
otherwise `splice` out the first matching row, save, and report `true`. -/
def deleteNote (noteId : Nat) (σ : Store) : Bool × Store :=
  if σ.data.notes.any fun n => n.id == noteId then
    (true,
      save { σ with
        data := { σ.data with notes := σ.data.notes.eraseP fun n => n.id == noteId } })
  else (false, σ)

/-- `searchNotes(query)`: lowercase the query, keep the notes whose lowercased
text contains it, sort most-recent-first, keep the first 50. -/
def searchNotes (q : List Char) (σ : Store) : List NoteRow :=
  ((σ.data.notes.filter fun n => jsIncludes (toLower n.note) (toLower q)).mergeSort
    byCreatedAtDesc).take 50

/-- A request against the store (the four exported operations). -/
inductive Req
  | add (t : EntityType) (i txt : List Char) (now : DateTime)
  | del (noteId : Nat)
  | get (t : EntityType) (i : List Char)
  | search (q : List Char)
deriving DecidableEq, Repr

/-- The response to a request. -/
inductive Out
  | row (r : NoteRow)
  | ok (b : Bool)
  | rows (l : List NoteRow)
deriving DecidableEq, Repr

/-- One request against the store: the response and the successor state. -/
def step (σ : Store) : Req → Out × Store
  | .add t i txt now =>
    let p := addNote t i txt now σ
    (.row p.1, p.2)
  | .del j =>
    let p := deleteNote j σ
    (.ok p.1, p.2)
  | .get t i => (.rows (getNotes t i σ), σ)
  | .search q => (.rows (searchNotes q σ), σ)

/-- Run a sequence of requests. -/
def run (σ : Store) : List Req → Store
  | [] => σ
  | r :: rest => run (step σ r).2 rest

/-- The store of a fresh process with no `notes.json` on disk, after
`initNotesDb()`. -/
def initialStore : Store := initNotesDb { data := initialData, file := none }

/-- The rows handed back by the `add` requests of a trace, in request order. -/
def addedRows (σ : Store) : List Req → List NoteRow
  | [] => []
  | .add t i txt now :: rest =>
    (addNote t i txt now σ).1 :: addedRows (addNote t i txt now σ).2 rest
  | .del j :: rest => addedRows (deleteNote j σ).2 rest
  | .get _ _ :: rest => addedRows σ rest
  | .search _ :: rest => addedRows σ rest

/-- Specification view of a trace: the notes ever added (with the ids the
store would assign, starting from `nid`) minus those deleted later in the
trace, in insertion order. -/
def specNotes (nid : Nat) : List Req → List NoteRow
  | [] => []
  | .add t i txt now :: rest =>
    (if Req.del nid ∈ rest then [] else [mkRow nid t i txt now]) ++ specNotes (nid + 1) rest
  | .del _ :: rest => specNotes nid rest
  | .get _ _ :: rest => specNotes nid rest
  | .search _ :: rest => specNotes nid rest

/-- The store-data invariant: every stored id is below `next_id`, and stored
ids are pairwise distinct. -/
def goodData (d : NotesData) : Prop :=
  (∀ n ∈ d.notes, n.id < d.next_id) ∧ d.notes.Pairwise fun a b => a.id ≠ b.id

/-- An MCP tool response: the text content and the `isError` flag (absent
meaning `false`). -/
structure ToolResponse where
  text : String
  isError : Bool
deriving DecidableEq, Repr

/-- The zod coercion of the raw `entity_type` argument against
`z.enum(["photo", "album", "group"])`. -/
def validEntityType (s : String) : Option EntityType :=
  if s = "photo" then some .photo
  else if s = "album" then some .album
  else if s = "group" then some .group
  else none

/-- The `flickr_add_note` tool. Modelled from the spec: the MCP SDK checks
the arguments against the zod schema declared in `src/tools/notes.ts`
(lines 26-33: `z.enum(["photo","album","group"])` for `entity_type`,
`z.string().min(1)` for `note`) and rejects non-conforming calls with an
error response before the handler — and hence `addNote` — runs. -/
def addNoteTool (entityTypeRaw : String) (entityId txt : List Char) (now : DateTime)
    (σ : Store) : ToolResponse × Store :=
  match validEntityType entityTypeRaw with
  | none => ({ text := "ValidationError", isError := true }, σ)
  | some t =>
    if txt.length < 1 then ({ text := "ValidationError", isError := true }, σ)
    else
      let p := addNote t entityId txt now σ
      ({ text := "Note #" ++ toString p.1.id ++ " added to " ++ entityTypeRaw
          ++ " `" ++ String.mk entityId ++ "`:\n> " ++ String.mk txt,
         isError := false }, p.2)

/-- The `flickr_delete_note` tool handler (src/tools/notes.ts lines 87-117). -/
def deleteNoteTool (noteId : Nat) (σ : Store) : ToolResponse × Store :=
  let p := deleteNote noteId σ
  if p.1 then
    ({ text := "Note #" ++ toString noteId ++ " deleted.", isError := false }, p.2)
  else
    ({ text := "Note #" ++ toString noteId ++ " not found.", isError := true }, p.2)

/-- A concrete add used by witnesses: first note of a same-second pair. -/
def wAdd1 : NoteRow × Store :=
  addNote .photo ("9").toList ("xa").toList ⟨2026, 3, 4, 5, 6, 7, 100⟩ initialStore

/-- A concrete add used by witnesses: second note, same second, later ms. -/
def wAdd2 : NoteRow × Store :=
  addNote .photo ("9").toList ("xb").toList ⟨2026, 3, 4, 5, 6, 7, 900⟩ wAdd1.2

/-! ### Basic lemmas about the comparator and the string operations -/

theorem lexLe_refl : ∀ s : List Char, lexLe s s = true
  | [] => rfl
  | a :: as => by simp [lexLe, lexLe_refl as]

theorem lexLe_total : ∀ s t : List Char, (lexLe s t || lexLe t s) = true
  | [], _ => by simp [lexLe]
  | _ :: _, [] => by simp [lexLe]
  | a :: as, b :: bs => by
    by_cases h1 : a.toNat < b.toNat
    · simp [lexLe, h1]
    · by_cases h2 : b.toNat < a.toNat
      · simp [lexLe, h1, h2]
      · simp [lexLe, h1, h2]
        exact (Bool.or_eq_true _ _).mp (lexLe_total as bs)

theorem lexLe_trans :
    ∀ {s t u : List Char}, lexLe s t = true → lexLe t u = true → lexLe s u = true
  | [], _, _, _, _ => by simp [lexLe]
  | _ :: _, [], _, h1, _ => by simp [lexLe] at h1
  | _ :: _, _ :: _, [], _, h2 => by simp [lexLe] at h2
  | a :: as, b :: bs, c :: cs, h1, h2 => by
    simp only [lexLe] at h1 h2 ⊢
    by_cases hab : a.toNat < b.toNat
    · by_cases hbc : b.toNat < c.toNat
      · have hac : a.toNat < c.toNat := by omega
        simp [hac]
      · by_cases hcb : c.toNat < b.toNat
        · simp [hbc, hcb] at h2
        · have hac : a.toNat < c.toNat := by omega
          simp [hac]
    · by_cases hba : b.toNat < a.toNat
      · simp [hab, hba] at h1
      · by_cases hbc : b.toNat < c.toNat
        · have hac : a.toNat < c.toNat := by omega
          simp [hac]
        · by_cases hcb : c.toNat < b.toNat
          · simp [hbc, hcb] at h2
          · have hac : ¬ a.toNat < c.toNat := by omega
            have hca : ¬ c.toNat < a.toNat := by omega
            simp [hab, hba] at h1
            simp [hbc, hcb] at h2
            simp [hac, hca]
            exact lexLe_trans h1 h2

theorem byCreatedAtDesc_trans (a b c : NoteRow) :
    byCreatedAtDesc a b → byCreatedAtDesc b c → byCreatedAtDesc a c :=
  fun h1 h2 => lexLe_trans h2 h1

theorem byCreatedAtDesc_total (a b : NoteRow) :
    (byCreatedAtDesc a b || byCreatedAtDesc b a) = true :=
  lexLe_total _ _

theorem jsIncludes_nil (hay : List Char) : jsIncludes hay [] = true := by
  cases hay <;> simp [jsIncludes, listStartsWith]

/-- With pairwise-distinct ids, removing the first row with a given id is the
same as removing every row with that id. -/
theorem eraseP_id_eq_filter (j : Nat) :
    ∀ ns : List NoteRow, (ns.Pairwise fun a b => a.id ≠ b.id) →
      ns.eraseP (fun n => n.id == j) = ns.filter fun n => n.id != j
  | [], _ => rfl
  | n :: ns, h => by
    by_cases hn : n.id = j
    · have hrest : ∀ m ∈ ns, (m.id != j) = true := by
        intro m hm
        have := (List.pairwise_cons.mp h).1 m hm
        simp [bne_iff_ne]
        omega
      simp [List.eraseP_cons, List.filter_cons, hn, List.filter_eq_self.mpr hrest]
    · simp [List.eraseP_cons, List.filter_cons, hn,
        eraseP_id_eq_filter j ns (List.pairwise_cons.mp h).2]

theorem mem_eraseP_of_not (p : NoteRow → Bool) (a : NoteRow) (hp : p a = false) :
    ∀ ns : List NoteRow, a ∈ ns → a ∈ ns.eraseP p
  | n :: ns, hmem => by
    by_cases hn : p n
    · have hne : a ≠ n := fun h => by subst h; rw [hp] at hn; exact Bool.false_ne_true hn
      have : a ∈ ns := by
        rcases List.mem_cons.mp hmem with h | h
        · exact absurd h hne
        · exact h
      simpa [List.eraseP_cons, hn]
    · rcases List.mem_cons.mp hmem with h | h
      · simp [List.eraseP_cons, hn, h]
      · simp [List.eraseP_cons, hn, mem_eraseP_of_not p a hp ns h]

/-! ### C4: delete semantics -/

/-- C4. `deleteNote(id)` returns `true` exactly when a note with that id is
stored (and `false` otherwise, never raising); a `false` result leaves the
store unchanged; the first delete after a successful add returns `true`; and
a successful delete makes the next delete of the same id return `false`. -/
theorem deleteNote_correct (σ : Store) (j : Nat) (t : EntityType) (i txt : List Char)
    (now : DateTime) (h : goodData σ.data) :
    ((deleteNote j σ).1 = true ↔ ∃ n ∈ σ.data.notes, n.id = j)
    ∧ ((deleteNote j σ).1 = false → (deleteNote j σ).2 = σ)
    ∧ (deleteNote (addNote t i txt now σ).1.id (addNote t i txt now σ).2).1 = true
    ∧ ((deleteNote j σ).1 = true → (deleteNote j (deleteNote j σ).2).1 = false) := by
  refine ⟨?_, ?_, ?_, ?_⟩
  · by_cases hc : σ.data.notes.any fun n => n.id == j
    · simp only [deleteNote, hc, if_true]
      simp only [List.any_eq_true, beq_iff_eq] at hc
      simpa using hc
    · simp only [deleteNote, hc, if_false]
      simp only [List.any_eq_true, beq_iff_eq] at hc
      simpa using hc
  · intro hf
    by_cases hc : σ.data.notes.any fun n => n.id == j
    · simp [deleteNote, hc] at hf
    · simp [deleteNote, hc]
  · have hmem : (addNote t i txt now σ).1 ∈ (addNote t i txt now σ).2.data.notes := by
      simp [addNote, save]
    have : (addNote t i txt now σ).2.data.notes.any
        (fun n => n.id == (addNote t i txt now σ).1.id) = true := by
      exact List.any_eq_true.mpr ⟨_, hmem, by simp⟩
    simp [deleteNote, this]
  · intro ht
    by_cases hc : σ.data.notes.any fun n => n.id == j
    · have herase : σ.data.notes.eraseP (fun n => n.id == j)
          = σ.data.notes.filter fun n => n.id != j :=
        eraseP_id_eq_filter j σ.data.notes h.2
      have hnone : ((σ.data.notes.filter fun n => n.id != j).any fun n => n.id == j)
          = false := by
        rw [List.any_eq_false]
        intro n hn
        have := (List.mem_filter.mp hn).2
        simp [bne_iff_ne] at this
        simp [this]
      simp [deleteNote, hc, save, herase, hnone]
    · simp [deleteNote, hc] at ht

/-- C4 witness at a concrete store: one added note, deleted twice. -/
theorem deleteNote_correct_witness :
    goodData ((addNote .photo ("7").toList ("hi").toList ⟨2026, 1, 2, 3, 4, 5, 6⟩
        initialStore).2).data
    ∧ (((deleteNote 1 (addNote .photo ("7").toList ("hi").toList ⟨2026, 1, 2, 3, 4, 5, 6⟩
        initialStore).2).1 = true ↔
        ∃ n ∈ ((addNote .photo ("7").toList ("hi").toList ⟨2026, 1, 2, 3, 4, 5, 6⟩
          initialStore).2).data.notes, n.id = 1)
      ∧ ((deleteNote 1 (addNote .photo ("7").toList ("hi").toList ⟨2026, 1, 2, 3, 4, 5, 6⟩
          initialStore).2).1 = false →
          (deleteNote 1 (addNote .photo ("7").toList ("hi").toList ⟨2026, 1, 2, 3, 4, 5, 6⟩
            initialStore).2).2
          = (addNote .photo ("7").toList ("hi").toList ⟨2026, 1, 2, 3, 4, 5, 6⟩
              initialStore).2)
      ∧ (deleteNote (addNote .album ("a").toList ("b").toList ⟨2026, 1, 2, 3, 4, 5, 6⟩
          (addNote .photo ("7").toList ("hi").toList ⟨2026, 1, 2, 3, 4, 5, 6⟩
            initialStore).2).1.id
          (addNote .album ("a").toList ("b").toList ⟨2026, 1, 2, 3, 4, 5, 6⟩
            (addNote .photo ("7").toList ("hi").toList ⟨2026, 1, 2, 3, 4, 5, 6⟩
              initialStore).2).2).1 = true
      ∧ ((deleteNote 1 (addNote .photo ("7").toList ("hi").toList ⟨2026, 1, 2, 3, 4, 5, 6⟩
          initialStore).2).1 = true →
          (deleteNote 1 (deleteNote 1 (addNote .photo ("7").toList ("hi").toList
            ⟨2026, 1, 2, 3, 4, 5, 6⟩ initialStore).2).2).1 = false)) :=
  ⟨⟨by decide, by decide⟩,
    deleteNote_correct _ 1 .album ("a").toList ("b").toList ⟨2026, 1, 2, 3, 4, 5, 6⟩
      ⟨by decide, by decide⟩⟩

/-! ### C9: no deduplication on add -/

/-- C9. Two `addNote` calls with identical arguments create two distinct notes
with distinct ids, and both are returned by `getNotes` for that entity pair. -/
theorem addNote_no_dedup (σ : Store) (t : EntityType) (i txt : List Char)
    (now now2 : DateTime) :
    (addNote t i txt now σ).1.id
        ≠ (addNote t i txt now2 (addNote t i txt now σ).2).1.id
    ∧ (addNote t i txt now σ).1 ≠ (addNote t i txt now2 (addNote t i txt now σ).2).1
    ∧ (addNote t i txt now σ).1
        ∈ getNotes t i (addNote t i txt now2 (addNote t i txt now σ).2).2
    ∧ (addNote t i txt now2 (addNote t i txt now σ).2).1
        ∈ getNotes t i (addNote t i txt now2 (addNote t i txt now σ).2).2 := by
  refine ⟨by simp [addNote, mkRow, save], ?_, ?_, ?_⟩
  · intro heq
    have := congrArg NoteRow.id heq
    simp [addNote, mkRow, save] at this
  · simp [getNotes, List.mem_filter, addNote, mkRow, save]
  · simp [getNotes, List.mem_filter, addNote, mkRow, save]

/-! ### C6: persistence round-trip -/

/-- C6. After `addNote` returns a row, re-initializing a fresh process from
the persisted file (`initNotesDb` with arbitrary in-memory data `d0` but the
file written by the add) and re-querying the entity pair returns that very
row — same id, same text, same timestamp. -/
theorem note_round_trip (σ : Store) (d0 : NotesData) (t : EntityType)
    (i txt : List Char) (now : DateTime) :
    (addNote t i txt now σ).1
      ∈ getNotes t i (initNotesDb { data := d0, file := (addNote t i txt now σ).2.file }) := by
  simp [addNote, initNotesDb, save, getNotes, List.mem_filter, mkRow]

/-! ### C10: the delete tool reports missing ids as errors -/

/-- C10. For an id with no stored note, `flickr_delete_note` answers with the
text `Note #<id> not found.` and `isError := true`, while the underlying
`deleteNote` merely returns `false` and the store is left unchanged. -/
theorem deleteNoteTool_missing (σ : Store) (j : Nat)
    (h : ∀ n ∈ σ.data.notes, n.id ≠ j) :
    (deleteNoteTool j σ).1.text = "Note #" ++ toString j ++ " not found."
    ∧ (deleteNoteTool j σ).1.isError = true
    ∧ (deleteNote j σ).1 = false
    ∧ (deleteNoteTool j σ).2 = σ := by
  have hany : (σ.data.notes.any fun n => n.id == j) = false := by
    rw [List.any_eq_false]
    intro n hn
    simp [h n hn]
  simp [deleteNoteTool, deleteNote, hany]

/-- C10 witness: id 5 is absent from the store holding a single note. -/
theorem deleteNoteTool_missing_witness :
    (∀ n ∈ ((addNote .photo ("7").toList ("hi").toList ⟨2026, 1, 2, 3, 4, 5, 6⟩
        initialStore).2).data.notes, n.id ≠ 5)
    ∧ ((deleteNoteTool 5 (addNote .photo ("7").toList ("hi").toList ⟨2026, 1, 2, 3, 4, 5, 6⟩
          initialStore).2).1.text = "Note #" ++ toString 5 ++ " not found."
      ∧ (deleteNoteTool 5 (addNote .photo ("7").toList ("hi").toList ⟨2026, 1, 2, 3, 4, 5, 6⟩
          initialStore).2).1.isError = true
      ∧ (deleteNote 5 (addNote .photo ("7").toList ("hi").toList ⟨2026, 1, 2, 3, 4, 5, 6⟩
          initialStore).2).1 = false
      ∧ (deleteNoteTool 5 (addNote .photo ("7").toList ("hi").toList ⟨2026, 1, 2, 3, 4, 5, 6⟩
          initialStore).2).2
        = (addNote .photo ("7").toList ("hi").toList ⟨2026, 1, 2, 3, 4, 5, 6⟩
            initialStore).2) :=
  ⟨by decide,
    deleteNoteTool_missing
      (addNote .photo ("7").toList ("hi").toList ⟨2026, 1, 2, 3, 4, 5, 6⟩ initialStore).2
      5 (by decide)⟩

/-! ### C5: validation happens before persistence -/

/-- C5. When the note text is empty or the raw `entity_type` is none of
`photo`, `album`, `group`, the add tool fails with a validation error and the
store — in-memory data and persisted file alike — is unchanged: no note is
created. -/
theorem addNoteTool_validation (s : String) (i txt : List Char) (now : DateTime)
    (σ : Store) (h : txt = [] ∨ (s ≠ "photo" ∧ s ≠ "album" ∧ s ≠ "group")) :
    (addNoteTool s i txt now σ).1.isError = true
    ∧ (addNoteTool s i txt now σ).1.text = "ValidationError"
    ∧ (addNoteTool s i txt now σ).2 = σ := by
  rcases h with h | ⟨h1, h2, h3⟩
  · subst h
    cases hv : validEntityType s <;> simp [addNoteTool, hv]
  · have hv : validEntityType s = none := by simp [validEntityType, h1, h2, h3]
    simp [addNoteTool, hv]

/-- C5 witness: empty text on a valid entity type, and a bogus entity type. -/
theorem addNoteTool_validation_witness :
    (([] : List Char) = [] ∨ ("photo" ≠ "photo" ∧ "photo" ≠ "album" ∧ "photo" ≠ "group"))
    ∧ ((addNoteTool "photo" ("1").toList [] ⟨2026, 1, 2, 3, 4, 5, 6⟩ initialStore).1.isError
        = true
      ∧ (addNoteTool "photo" ("1").toList [] ⟨2026, 1, 2, 3, 4, 5, 6⟩ initialStore).1.text
        = "ValidationError"
      ∧ (addNoteTool "photo" ("1").toList [] ⟨2026, 1, 2, 3, 4, 5, 6⟩ initialStore).2
        = initialStore) :=
  ⟨Or.inl rfl,
    addNoteTool_validation "photo" ("1").toList [] ⟨2026, 1, 2, 3, 4, 5, 6⟩ initialStore
      (Or.inl rfl)⟩

/-! ### C2: ids are unique and strictly increasing -/

theorem deleteNote_next_id (j : Nat) (σ : Store) :
    (deleteNote j σ).2.data.next_id = σ.data.next_id := by
  by_cases hc : σ.data.notes.any fun n => n.id == j <;> simp [deleteNote, hc, save]

theorem addedRows_ids_ge (ops : List Req) :
    ∀ σ : Store, ∀ r ∈ addedRows σ ops, σ.data.next_id ≤ r.id := by
  induction ops with
  | nil => intro σ r hr; simp [addedRows] at hr
  | cons op rest ih =>
    intro σ r hr
    cases op with
    | add t i txt now =>
      rw [addedRows] at hr
      rcases List.mem_cons.mp hr with h | h
      · subst h; simp [addNote, mkRow]
      · have h1 := ih _ r h
        have h2 : (addNote t i txt now σ).2.data.next_id = σ.data.next_id + 1 := by
          simp [addNote, save]
        omega
    | del j =>
      rw [addedRows] at hr
      have h1 := ih _ r hr
      rw [deleteNote_next_id] at h1
      exact h1
    | get t i => exact ih _ r (by rwa [addedRows] at hr)
    | search q => exact ih _ r (by rwa [addedRows] at hr)

theorem addedRows_ids_pairwise (ops : List Req) :
    ∀ σ : Store, ((addedRows σ ops).map NoteRow.id).Pairwise (· < ·) := by
  induction ops with
  | nil => intro σ; simp [addedRows]
  | cons op rest ih =>
    intro σ
    cases op with
    | add t i txt now =>
      rw [addedRows, List.map_cons]
      refine List.pairwise_cons.mpr ⟨?_, ih _⟩
      intro m hm
      simp only [List.mem_map] at hm
      obtain ⟨r, hr, rfl⟩ := hm
      have h1 := addedRows_ids_ge rest _ r hr
      have h2 : (addNote t i txt now σ).2.data.next_id = σ.data.next_id + 1 := by
        simp [addNote, save]
      have h3 : (addNote t i txt now σ).1.id = σ.data.next_id := by simp [addNote, mkRow]
      omega
    | del j => rw [addedRows]; exact ih _
    | get t i => rw [addedRows]; exact ih _
    | search q => rw [addedRows]; exact ih _

/-- C2. Along any request trace from the initialized store, the ids handed
back by `addNote` are strictly increasing in creation order — hence unique
and never reused, deletions notwithstanding. -/
theorem addNote_ids_strictly_increasing (ops : List Req) :
    ((addedRows initialStore ops).map NoteRow.id).Pairwise (· < ·) :=
  addedRows_ids_pairwise ops initialStore

/-! ### C1: a trace's surviving notes, and what getNotes returns -/

theorem goodData_step (σ : Store) (r : Req) (h : goodData σ.data) :
    goodData (step σ r).2.data := by
  obtain ⟨hlt, hnd⟩ := h
  cases r with
  | add t i txt now =>
    constructor
    · intro n hn
      simp only [step, addNote, save, List.mem_append, List.mem_singleton] at hn
      rcases hn with hn | hn
      · have := hlt n hn
        simp only [step, addNote, save]
        omega
      · subst hn
        simp [step, addNote, save, mkRow]
    · simp only [step, addNote, save]
      rw [List.pairwise_append]
      refine ⟨hnd, by simp, ?_⟩
      intro x hx y hy
      simp only [List.mem_singleton] at hy
      subst hy
      have := hlt x hx
      simp [mkRow]
      omega
  | del j =>
    by_cases hc : σ.data.notes.any fun n => n.id == j
    · constructor
      · intro n hn
        simp only [step, deleteNote, hc, if_true, save] at hn ⊢
        exact hlt n (List.mem_of_mem_eraseP hn)
      · simp only [step, deleteNote, hc, if_true, save]
        exact List.Pairwise.sublist (List.eraseP_sublist _) hnd
    · simpa [step, deleteNote, hc] using ⟨hlt, hnd⟩
  | get t i => exact ⟨hlt, hnd⟩
  | search q => exact ⟨hlt, hnd⟩

theorem run_notes (ops : List Req) :
    ∀ σ : Store, goodData σ.data →
      (run σ ops).data.notes
        = (σ.data.notes.filter fun n => decide (Req.del n.id ∉ ops))
          ++ specNotes σ.data.next_id ops := by
  induction ops with
  | nil =>
    intro σ h
    simp [run, specNotes]
  | cons op rest ih =>
    intro σ h
    cases op with
    | add t i txt now =>
      have hgood := goodData_step σ (.add t i txt now) h
      rw [run, ih _ hgood]
      have hnotes : (step σ (.add t i txt now)).2.data.notes
          = σ.data.notes ++ [mkRow σ.data.next_id t i txt now] := by
        simp [step, addNote, save]
      have hnid : (step σ (.add t i txt now)).2.data.next_id = σ.data.next_id + 1 := by
        simp [step, addNote, save]
      rw [hnotes, hnid, List.filter_append, specNotes]
      have hcongr : (σ.data.notes.filter fun n => decide (Req.del n.id ∉ rest))
          = σ.data.notes.filter fun n =>
              decide (Req.del n.id ∉ Req.add t i txt now :: rest) := by
        apply List.filter_congr
        intro n _
        simp [List.mem_cons]
      rw [hcongr]
      by_cases hmem : Req.del σ.data.next_id ∈ rest
      · simp [hmem, mkRow]
      · simp [hmem, mkRow]
    | del j =>
      have hgood := goodData_step σ (.del j) h
      rw [run, ih _ hgood]
      have hnid : (step σ (.del j)).2.data.next_id = σ.data.next_id := by
        simp only [step]
        exact deleteNote_next_id j σ
      rw [hnid, specNotes]
      by_cases hc : σ.data.notes.any fun n => n.id == j
      · have hnotes : (step σ (.del j)).2.data.notes
            = σ.data.notes.eraseP fun n => n.id == j := by
          simp [step, deleteNote, hc, save]
        rw [hnotes, eraseP_id_eq_filter j _ h.2, List.filter_filter]
        congr 1
        apply List.filter_congr
        intro n _
        by_cases h1 : n.id = j <;> by_cases h2 : Req.del n.id ∈ rest <;>
          simp [List.mem_cons, h1, h2]
      · have hnotes : (step σ (.del j)).2.data.notes = σ.data.notes := by
          simp [step, deleteNote, hc]
        rw [hnotes]
        congr 1
        apply List.filter_congr
        intro n hn
        have hne : n.id ≠ j := by
          intro heq
          exact hc (List.any_eq_true.mpr ⟨n, hn, by simp [heq]⟩)
        simp [List.mem_cons, hne]
    | get t i =>
      rw [run]
      have : (step σ (.get t i)).2 = σ := rfl
      rw [this, ih _ h, specNotes]
      congr 1
      apply List.filter_congr
      intro n _
      simp [List.mem_cons]
    | search q =>
      rw [run]
      have : (step σ (.search q)).2 = σ := rfl
      rw [this, ih _ h, specNotes]
      congr 1
      apply List.filter_congr
      intro n _
      simp [List.mem_cons]

theorem initialStore_goodData : goodData initialStore.data :=
  ⟨by simp [initialStore, initNotesDb, save, initialData], by
    simp [initialStore, initNotesDb, save, initialData]⟩

theorem run_initial_notes (ops : List Req) :
    (run initialStore ops).data.notes = specNotes 1 ops := by
  have := run_notes ops initialStore initialStore_goodData
  simpa [initialStore, initNotesDb, save, initialData] using this

/-- C1. After any request trace from the initialized store, `getNotes t i`
returns exactly the notes ever added with that entity pair minus those
subsequently deleted (a permutation of them), sorted most-recent-first by
`created_at`; a pair with no surviving note yields the empty list. -/
theorem getNotes_after_trace (ops : List Req) (t : EntityType) (i : List Char) :
    (getNotes t i (run initialStore ops)).Perm
        ((specNotes 1 ops).filter fun n => n.entity_type == t && n.entity_id == i)
    ∧ ((getNotes t i (run initialStore ops)).Pairwise fun a b => byCreatedAtDesc a b)
    ∧ (((specNotes 1 ops).filter fun n => n.entity_type == t && n.entity_id == i) = [] →
        getNotes t i (run initialStore ops) = []) := by
  have hperm : (getNotes t i (run initialStore ops)).Perm
      ((specNotes 1 ops).filter fun n => n.entity_type == t && n.entity_id == i) := by
    unfold getNotes
    rw [run_initial_notes]
    exact List.mergeSort_perm _ _
  refine ⟨hperm, ?_, ?_⟩
  · exact List.sorted_mergeSort byCreatedAtDesc_trans byCreatedAtDesc_total _
  · intro hnil
    rw [hnil] at hperm
    exact hperm.eq_nil

/-! ### C3: substring search -/

/-- C3. `searchNotes q` returns only stored notes whose text contains `q`
case-insensitively, sorted most-recent-first, never more than 50 results;
when at most 50 notes match it returns exactly the matching notes; and the
empty query matches every note, so it returns `min 50` of the whole store. -/
theorem searchNotes_correct (q : List Char) (σ : Store) :
    (∀ n ∈ searchNotes q σ,
        n ∈ σ.data.notes ∧ jsIncludes (toLower n.note) (toLower q) = true)
    ∧ (searchNotes q σ).length ≤ 50
    ∧ ((searchNotes q σ).Pairwise fun a b => byCreatedAtDesc a b)
    ∧ ((σ.data.notes.filter fun n => jsIncludes (toLower n.note) (toLower q)).length ≤ 50 →
        (searchNotes q σ).Perm
          (σ.data.notes.filter fun n => jsIncludes (toLower n.note) (toLower q)))
    ∧ (searchNotes [] σ).length = min 50 σ.data.notes.length := by
  refine ⟨?_, ?_, ?_, ?_, ?_⟩
  · intro n hn
    have h1 : n ∈ (σ.data.notes.filter fun n =>
        jsIncludes (toLower n.note) (toLower q)).mergeSort byCreatedAtDesc :=
      List.mem_of_mem_take hn
    have h2 := List.mem_mergeSort.mp h1
    exact List.mem_filter.mp h2
  · simp [searchNotes]
  · exact List.Pairwise.sublist (List.take_sublist _ _)
      (List.sorted_mergeSort byCreatedAtDesc_trans byCreatedAtDesc_total _)
  · intro hlen
    unfold searchNotes
    rw [List.take_of_length_le (by simpa using hlen)]
    exact List.mergeSort_perm _ _
  · have hall : (σ.data.notes.filter fun n =>
        jsIncludes (toLower n.note) (toLower [])) = σ.data.notes :=
      List.filter_eq_self.mpr fun n _ => by simp [toLower, jsIncludes_nil]
    simp [searchNotes, hall]

/-! ### C7: notes are immutable and stay retrievable; queries do not mutate -/

theorem mem_run_of_no_del (ops : List Req) :
    ∀ σ : Store, ∀ n : NoteRow, n ∈ σ.data.notes → (∀ r ∈ ops, r ≠ Req.del n.id) →
      n ∈ (run σ ops).data.notes := by
  induction ops with
  | nil => intro σ n h _; simpa [run]
  | cons op rest ih =>
    intro σ n hmem hops
    rw [run]
    refine ih _ n ?_ fun r hr => hops r (List.mem_cons_of_mem _ hr)
    cases op with
    | add t i txt now =>
      simp only [step, addNote, save]
      exact List.mem_append_left _ hmem
    | del j =>
      have hne : n.id ≠ j := by
        intro heq
        exact hops _ (List.mem_cons_self _ _) (by rw [heq])
      by_cases hc : σ.data.notes.any fun m => m.id == j
      · simp only [step, deleteNote, hc, if_true, save]
        exact mem_eraseP_of_not _ n (by simp [hne]) _ hmem
      · simpa [step, deleteNote, hc]
    | get t i => exact hmem
    | search q2 => exact hmem

/-- C7. A stored note survives, unchanged, every request that is not a
delete of its own id; it stays retrievable by its exact entity pair via
`getNotes`; and the two query operations leave the store state untouched. -/
theorem note_immutable_frame (σ : Store) (n : NoteRow) (ops : List Req)
    (t : EntityType) (i q : List Char)
    (hmem : n ∈ σ.data.notes) (hops : ∀ r ∈ ops, r ≠ Req.del n.id) :
    n ∈ (run σ ops).data.notes
    ∧ n ∈ getNotes n.entity_type n.entity_id σ
    ∧ (step σ (Req.get t i)).2 = σ
    ∧ (step σ (Req.search q)).2 = σ := by
  refine ⟨mem_run_of_no_del ops σ n hmem hops, ?_, rfl, rfl⟩
  unfold getNotes
  rw [List.mem_mergeSort]
  exact List.mem_filter.mpr ⟨hmem, by simp⟩

/-- C7 witness: one stored note, a trace that deletes a different id. -/
theorem note_immutable_frame_witness :
    ((addNote .photo ("7").toList ("hi").toList ⟨2026, 1, 2, 3, 4, 5, 6⟩
        initialStore).1
      ∈ ((addNote .photo ("7").toList ("hi").toList ⟨2026, 1, 2, 3, 4, 5, 6⟩
        initialStore).2).data.notes
    ∧ (∀ r ∈ [Req.del 2, Req.get .album ("x").toList],
        r ≠ Req.del (addNote .photo ("7").toList ("hi").toList ⟨2026, 1, 2, 3, 4, 5, 6⟩
          initialStore).1.id))
    ∧ ((addNote .photo ("7").toList ("hi").toList ⟨2026, 1, 2, 3, 4, 5, 6⟩
        initialStore).1
      ∈ (run ((addNote .photo ("7").toList ("hi").toList ⟨2026, 1, 2, 3, 4, 5, 6⟩
          initialStore).2) [Req.del 2, Req.get .album ("x").toList]).data.notes
    ∧ (addNote .photo ("7").toList ("hi").toList ⟨2026, 1, 2, 3, 4, 5, 6⟩
        initialStore).1
      ∈ getNotes (addNote .photo ("7").toList ("hi").toList ⟨2026, 1, 2, 3, 4, 5, 6⟩
            initialStore).1.entity_type
          (addNote .photo ("7").toList ("hi").toList ⟨2026, 1, 2, 3, 4, 5, 6⟩
            initialStore).1.entity_id
          ((addNote .photo ("7").toList ("hi").toList ⟨2026, 1, 2, 3, 4, 5, 6⟩
            initialStore).2)
    ∧ (step ((addNote .photo ("7").toList ("hi").toList ⟨2026, 1, 2, 3, 4, 5, 6⟩
          initialStore).2) (Req.get .photo ("7").toList)).2
        = (addNote .photo ("7").toList ("hi").toList ⟨2026, 1, 2, 3, 4, 5, 6⟩
            initialStore).2
    ∧ (step ((addNote .photo ("7").toList ("hi").toList ⟨2026, 1, 2, 3, 4, 5, 6⟩
          initialStore).2) (Req.search ("h").toList)).2
        = (addNote .photo ("7").toList ("hi").toList ⟨2026, 1, 2, 3, 4, 5, 6⟩
            initialStore).2) :=
  ⟨⟨by decide, by decide⟩,
    note_immutable_frame
      (addNote .photo ("7").toList ("hi").toList ⟨2026, 1, 2, 3, 4, 5, 6⟩ initialStore).2
      (addNote .photo ("7").toList ("hi").toList ⟨2026, 1, 2, 3, 4, 5, 6⟩ initialStore).1
      [Req.del 2, Req.get .album ("x").toList] .photo ("7").toList ("h").toList
      (by decide) (by decide)⟩

/-! ### C8: one-second timestamp granularity and stable ordering -/

theorem digitChar_ne_T (n : Nat) : ¬ digitChar n = 'T' := by
  unfold digitChar
  have h : n % 10 < 10 := Nat.mod_lt _ (by omega)
  set m := n % 10 with hm
  clear_value m
  interval_cases m <;> decide

theorem T_ne_digitChar (n : Nat) : ¬ 'T' = digitChar n :=
  fun h => digitChar_ne_T n h.symm

theorem replaceFirst_append_of_no_T (repl : List Char) :
    ∀ xs : List Char, 'T' ∉ xs → ∀ ys : List Char,
      replaceFirst ['T'] repl (xs ++ ys) = xs ++ replaceFirst ['T'] repl ys
  | [], _, _ => by simp
  | a :: as, hx, ys => by
    have ha : ¬ a = 'T' := fun h => hx (by simp [h])
    have hs : listStartsWith (a :: (as ++ ys)) ['T'] = false := by
      simp [listStartsWith, ha]
    rw [List.cons_append, replaceFirst, hs]
    simp only [if_false, Bool.false_eq_true]
    rw [replaceFirst_append_of_no_T repl as (fun h => hx (List.mem_cons_of_mem _ h)) ys]
    rfl

theorem replaceFirst_T_cons (repl ys : List Char) :
    replaceFirst ['T'] repl ('T' :: ys) = repl ++ ys := by
  have hs : listStartsWith ('T' :: ys) ['T'] = true := by simp [listStartsWith]
  rw [replaceFirst, hs]
  simp

/-- The `created_at` stamp has exactly the whole-second form
`"YYYY-MM-DD HH:MM:SS"`: the milliseconds field of the clock is dropped. -/
theorem createdAt_format (dt : DateTime) :
    createdAt dt
      = pad4 dt.year ++ ['-'] ++ pad2 dt.month ++ ['-'] ++ pad2 dt.day ++ [' ']
        ++ pad2 dt.hour ++ [':'] ++ pad2 dt.minute ++ [':'] ++ pad2 dt.second := by
  have hpre : 'T' ∉ pad4 dt.year ++ ['-'] ++ pad2 dt.month ++ ['-'] ++ pad2 dt.day := by
    simp [pad4, pad2, T_ne_digitChar]
  have hiso : toISOString dt
      = (pad4 dt.year ++ ['-'] ++ pad2 dt.month ++ ['-'] ++ pad2 dt.day)
        ++ ('T' :: (pad2 dt.hour ++ [':'] ++ pad2 dt.minute ++ [':'] ++ pad2 dt.second
          ++ ['.'] ++ pad3 dt.ms ++ ['Z'])) := by
    simp [toISOString]
  rw [createdAt, hiso, replaceFirst_append_of_no_T _ _ hpre, replaceFirst_T_cons]
  simp [pad4, pad3, pad2, List.take_succ_cons]

/-- In a duplicate-free list, a pair that occurs in order and whose second
component survives `take k` occurs in order in `take k` as well. -/
theorem pair_sublist_take {α : Type} {a b : α} :
    ∀ (s : List α) (k : Nat), s.Nodup → [a, b].Sublist s → b ∈ s.take k →
      [a, b].Sublist (s.take k)
  | [], _, _, _, hb => by simp at hb
  | x :: s2, 0, _, _, hb => by simp at hb
  | x :: s2, k + 1, hnd, hs, hb => by
    obtain ⟨hx, hnd2⟩ := List.nodup_cons.mp hnd
    rw [List.take_succ_cons] at hb ⊢
    cases hs with
    | cons _ h =>
      have hbs2 : b ∈ s2 := h.subset (by simp)
      rcases List.mem_cons.mp hb with hbx | hbt
      · exact absurd (hbx ▸ hbs2) hx
      · exact (pair_sublist_take s2 k hnd2 h hbt).cons x
    | cons₂ _ h =>
      have hbs2 : b ∈ s2 := (List.singleton_sublist.mp h)
      rcases List.mem_cons.mp hb with hbx | hbt
      · exact absurd (hbx ▸ hbs2) hx
      · exact (List.singleton_sublist.mpr hbt).cons₂ _

theorem notes_nodup_of_goodIds {ns : List NoteRow}
    (h : ns.Pairwise fun x y => x.id ≠ y.id) : ns.Nodup :=
  h.imp fun hne heq => hne (by rw [heq])

/-- C8. `created_at` has whole-second granularity — the stamp is exactly
`"YYYY-MM-DD HH:MM:SS"`, so two notes created in the same second carry equal
stamps — and the sorts in `getNotes` and `searchNotes` are stable, so among
equal timestamps the earliest-added note comes first in both results. -/
theorem createdAt_granularity_and_stable_sort (dt : DateTime) (σ : Store)
    (t : EntityType) (i q : List Char) (a b : NoteRow)
    (hids : σ.data.notes.Pairwise fun x y => x.id ≠ y.id)
    (hab : [a, b].Sublist σ.data.notes)
    (heq : a.created_at = b.created_at)
    (hat : a.entity_type = t) (hai : a.entity_id = i)
    (hbt : b.entity_type = t) (hbi : b.entity_id = i)
    (haq : jsIncludes (toLower a.note) (toLower q) = true)
    (hbq : jsIncludes (toLower b.note) (toLower q) = true)
    (hbmem : b ∈ searchNotes q σ) :
    createdAt dt
      = pad4 dt.year ++ ['-'] ++ pad2 dt.month ++ ['-'] ++ pad2 dt.day ++ [' ']
        ++ pad2 dt.hour ++ [':'] ++ pad2 dt.minute ++ [':'] ++ pad2 dt.second
    ∧ [a, b].Sublist (getNotes t i σ)
    ∧ [a, b].Sublist (searchNotes q σ) := by
  have hle : byCreatedAtDesc a b = true := by
    unfold byCreatedAtDesc
    rw [heq]
    exact lexLe_refl _
  refine ⟨createdAt_format dt, ?_, ?_⟩
  · have hfil : [a, b].Sublist (σ.data.notes.filter fun n =>
        n.entity_type == t && n.entity_id == i) := by
      have := hab.filter fun n => n.entity_type == t && n.entity_id == i
      simpa [hat, hai, hbt, hbi] using this
    exact List.pair_sublist_mergeSort byCreatedAtDesc_trans byCreatedAtDesc_total hle hfil
  · have hfil : [a, b].Sublist (σ.data.notes.filter fun n =>
        jsIncludes (toLower n.note) (toLower q)) := by
      have := hab.filter fun n => jsIncludes (toLower n.note) (toLower q)
      simpa [haq, hbq] using this
    have hsorted : [a, b].Sublist ((σ.data.notes.filter fun n =>
        jsIncludes (toLower n.note) (toLower q)).mergeSort byCreatedAtDesc) :=
      List.pair_sublist_mergeSort byCreatedAtDesc_trans byCreatedAtDesc_total hle hfil
    have hnd : ((σ.data.notes.filter fun n =>
        jsIncludes (toLower n.note) (toLower q)).mergeSort byCreatedAtDesc).Nodup :=
      (List.mergeSort_perm _ _).symm.nodup
        ((notes_nodup_of_goodIds hids).filter _)
    exact pair_sublist_take _ 50 hnd hsorted hbmem

/-- C8 witness: two notes added within the same second (differing only in
milliseconds) on the same photo; both match the query `"x"`. -/
theorem createdAt_granularity_and_stable_sort_witness :
    ((wAdd2.2.data.notes.Pairwise fun x y => x.id ≠ y.id)
    ∧ [wAdd1.1, wAdd2.1].Sublist wAdd2.2.data.notes
    ∧ wAdd1.1.created_at = wAdd2.1.created_at
    ∧ wAdd1.1.entity_type = .photo
    ∧ wAdd1.1.entity_id = ("9").toList
    ∧ wAdd2.1.entity_type = .photo
    ∧ wAdd2.1.entity_id = ("9").toList
    ∧ jsIncludes (toLower wAdd1.1.note) (toLower ("x").toList) = true
    ∧ jsIncludes (toLower wAdd2.1.note) (toLower ("x").toList) = true
    ∧ wAdd2.1 ∈ searchNotes ("x").toList wAdd2.2)
    ∧ (createdAt ⟨2026, 3, 4, 5, 6, 7, 100⟩
        = pad4 2026 ++ ['-'] ++ pad2 3 ++ ['-'] ++ pad2 4 ++ [' ']
          ++ pad2 5 ++ [':'] ++ pad2 6 ++ [':'] ++ pad2 7
      ∧ [wAdd1.1, wAdd2.1].Sublist (getNotes .photo ("9").toList wAdd2.2)
      ∧ [wAdd1.1, wAdd2.1].Sublist (searchNotes ("x").toList wAdd2.2)) :=
  ⟨⟨by decide, by decide, by decide, by decide, by decide, by decide, by decide,
      by decide, by decide, by
        unfold searchNotes
        rw [List.take_of_length_le (by simp; decide), List.mem_mergeSort]
        decide⟩,
    createdAt_granularity_and_stable_sort ⟨2026, 3, 4, 5, 6, 7, 100⟩ wAdd2.2 .photo
      ("9").toList ("x").toList wAdd1.1 wAdd2.1 (by decide) (by decide) (by decide)
      (by decide) (by decide) (by decide) (by decide) (by decide) (by decide)
      (by
        unfold searchNotes
        rw [List.take_of_length_le (by simp; decide), List.mem_mergeSort]
        decide)⟩

end FlickrNotes
